import Mathlib

/-!
Verification of the brainfuck-rs compiler core.

Shallow embedding of the instruction data model (`src/instruction.rs`), the
loop optimizer (`src/optimizer.rs`) and the code generator
(`src/code_gen.rs`), together with theorems settling the frozen claims.

Machine integers are modelled as `Nat`/`Int`: byte arithmetic is taken
modulo 256 exactly where the source uses `u8`/`Wrapping<u8>`; `usize`
amounts become `Nat`; the signed relative cell offset (`isize`) becomes
`Int`.  The `HashMap<isize, (bool, Wrapping<u8>)>` used by
`Optimizer::unroll_loop` is modelled as an association list in first-touch
(insertion) order; Rust's `HashMap` iteration order is unspecified, which
is itself relevant to claims about emission order.
-/

namespace Brainfuck

/-- The instruction tree of `src/instruction.rs` (`enum Instruction`).
`usize` payloads are `Nat`; `u8` payloads are `Nat` understood mod 256. -/
inductive Instruction where
  | moveRight (amount : Nat)
  | moveLeft (amount : Nat)
  | increment (amount : Nat)
  | decrement (amount : Nat)
  | output
  | input
  | loop (instructions : List Instruction)
  | moveRightUntilZero (stepSize : Nat)
  | moveLeftUntilZero (stepSize : Nat)
  | setToZero
  | withMultiplier (instructions : List Instruction)
  | moveValueRight (amount : Nat)
  | moveValueLeft (amount : Nat)

/-- The per-offset bookkeeping of `Optimizer::unroll_loop`:
`HashMap<isize, (bool, Wrapping<u8>)>` modelled as an association list in
first-touch order.  The `Bool` records whether the first arithmetic
instruction seen at that offset was an `Increment`; the `Nat` (mod 256) is
the magnitude accumulated in that first direction. -/
abbrev OpsMap := List (Int × Bool × Nat)

/-- One `entry(...)` update of the bookkeeping map (the `Increment` /
`Decrement` arms of the closure in `Optimizer::unroll_loop`, lines 68-97):
an occupied entry adds the amount when the stored direction matches the
instruction and subtracts it (wrapping mod 256) otherwise; a vacant entry
is inserted at the end with the instruction's direction and amount. -/
def opsUpdate (ops : OpsMap) (cell : Int) (inc : Bool) (amount : Nat) : OpsMap :=
  match ops with
  | [] => [(cell, inc, amount % 256)]
  | (c, flag, amt) :: rest =>
    if c = cell then
      (c, flag,
        if flag = inc then (amt + amount) % 256
        else (amt + 256 - amount % 256) % 256) :: rest
    else (c, flag, amt) :: opsUpdate rest cell inc amount

/-- Association-list lookup, the read half of `HashMap::remove(&0)`. -/
def opsLookup (ops : OpsMap) (cell : Int) : Option (Bool × Nat) :=
  match ops with
  | [] => none
  | (c, flag, amt) :: rest => if c = cell then some (flag, amt) else opsLookup rest cell

/-- Association-list removal, the delete half of `HashMap::remove(&0)`. -/
def opsRemove (ops : OpsMap) (cell : Int) : OpsMap :=
  match ops with
  | [] => []
  | (c, flag, amt) :: rest =>
    if c = cell then rest else (c, flag, amt) :: opsRemove rest cell

/-- The symbolic scan of `Optimizer::unroll_loop` (the `instructions.iter().all`
closure, lines 64-102): walks the body tracking the relative cell offset and
the per-offset bookkeeping map; stops at the first instruction that is not
MoveRight/MoveLeft/Increment/Decrement, returning `false` as its first
component in that case. -/
def scanBody : List Instruction → Int → OpsMap → Bool × Int × OpsMap
  | [], cell, ops => (true, cell, ops)
  | .moveRight a :: rest, cell, ops => scanBody rest (cell + a) ops
  | .moveLeft a :: rest, cell, ops => scanBody rest (cell - a) ops
  | .increment a :: rest, cell, ops => scanBody rest cell (opsUpdate ops cell true a)
  | .decrement a :: rest, cell, ops => scanBody rest cell (opsUpdate ops cell false a)
  | _ :: _, cell, ops => (false, cell, ops)

/-- The `flat_map` emission of `Optimizer::unroll_loop` (lines 118-166):
walks the remaining map entries with their enumeration index, skipping
entries whose accumulated amount is zero, and for each emitted entry
produces a pointer move from the previous emitted offset, an
Increment/Decrement of the recorded magnitude, and — only when the
enumeration index is the last one — a final move back to offset 0. -/
def emitBody : List (Int × Bool × Nat) → Int → Nat → Nat → List Instruction
  | [], _, _, _ => []
  | (c, flag, amt) :: rest, current, i, total =>
    if amt = 0 then emitBody rest current (i + 1) total
    else
      let movement := c - current
      let moveInstr := if 0 < movement then Instruction.moveRight movement.toNat
        else Instruction.moveLeft movement.natAbs
      let arithInstr := if flag then Instruction.increment amt else Instruction.decrement amt
      let tail := if i = total - 1 then
          [if 0 < c then Instruction.moveLeft c.toNat else Instruction.moveRight c.natAbs]
        else []
      moveInstr :: arithInstr :: (tail ++ emitBody rest c (i + 1) total)

/-- The non-recursive center of `Optimizer::unroll_loop` (lines 58-175),
applied to the already recursively optimized body: scan the body, and if it
is unrollable with the entry at offset 0 being exactly `(false, Wrapping(1))`,
classify into SetToZero / MoveValueRight / MoveValueLeft / WithMultiplier;
otherwise keep a Loop around the (optimized) body. -/
def unrollCore (instrs : List Instruction) : Instruction :=
  if (scanBody instrs 0 []).1 = true ∧ (scanBody instrs 0 []).2.1 = 0 then
    match opsLookup (scanBody instrs 0 []).2.2 0 with
    | some (false, 1) =>
      match opsRemove (scanBody instrs 0 []).2.2 0 with
      | [] => .setToZero
      | [(c, true, 1)] =>
        if 0 < c then .moveValueRight c.toNat else .moveValueLeft c.natAbs
      | rest => .withMultiplier (emitBody rest 0 0 rest.length)
    | _ => .loop instrs
  else .loop instrs

/-- The single-instruction substitution table of `Optimizer::optimize_loop`
(lines 40-52). -/
def singleTable (i : Instruction) : Instruction :=
  match i with
  | .moveRight a => .moveRightUntilZero a
  | .moveLeft a => .moveLeftUntilZero a
  | .increment 1 => .setToZero
  | .decrement 1 => .setToZero
  | i => .loop [i]

/-- The `Iterator::next` step of `Optimizer` (lines 184-189) on one instruction:
a Loop is rewritten by `optimize_loop` (single-instruction table for
one-element bodies, otherwise `unroll_loop` on the recursively optimized
body); every other instruction is passed through unchanged. -/
def optimizeInstruction : Instruction → Instruction
  | .loop [i] => singleTable i
  | .loop instrs => unrollCore (instrs.attach.map fun x => optimizeInstruction x.1)
  | i => i
termination_by i => sizeOf i
decreasing_by
  have := List.sizeOf_lt_of_mem x.2
  simp only [Instruction.loop.sizeOf_spec]
  omega

/-- Running the whole `Optimizer` iterator over a program: each instruction
is mapped through `optimizeInstruction`. -/
def optimize (p : List Instruction) : List Instruction :=
  p.map optimizeInstruction

theorem attach_map_eq (l : List Instruction) :
    (l.attach.map fun x => optimizeInstruction x.1) = l.map optimizeInstruction := by
  induction l with
  | nil => rfl
  | cons a t ih => simp [List.attach, List.attachWith, List.map_pmap, List.pmap_eq_map] at *

/-- Holds (`true`) exactly on Loop nodes. -/
def isLoopB : Instruction → Bool
  | .loop _ => true
  | _ => false

/-- The four instruction kinds a loop body may contain and still be
unrollable (claim side of the `_ => return false` arm of the scan). -/
def isArith : Instruction → Bool
  | .moveRight _ => true
  | .moveLeft _ => true
  | .increment _ => true
  | .decrement _ => true
  | _ => false

/-- Signed pointer displacement of one instruction. -/
def moveDelta : Instruction → Int
  | .moveRight a => (a : Int)
  | .moveLeft a => -(a : Int)
  | _ => 0

/-- Net pointer displacement of a body over one pass. -/
def netMove (l : List Instruction) : Int := (l.map moveDelta).sum

/-- The single-instruction bodies that the substitution table of
`Optimizer::optimize_loop` rewrites (everything else keeps its Loop). -/
def isSingleSpecial : Instruction → Bool
  | .moveRight _ => true
  | .moveLeft _ => true
  | .increment 1 => true
  | .decrement 1 => true
  | _ => false

theorem optimizeInstruction_nonloop (i : Instruction) (h : isLoopB i = false) :
    optimizeInstruction i = i := by
  cases i <;> simp_all [isLoopB, optimizeInstruction]

theorem optimizeInstruction_loop_single (i : Instruction) :
    optimizeInstruction (.loop [i]) = singleTable i := by
  simp [optimizeInstruction]

theorem optimizeInstruction_loop_of_ne_one (l : List Instruction) (h : l.length ≠ 1) :
    optimizeInstruction (.loop l) = unrollCore (optimize l) := by
  match l with
  | [] => simp [optimizeInstruction, optimize, unrollCore]
  | [i] => simp at h
  | a :: b :: t =>
    rw [optimizeInstruction.eq_def]
    simp only [attach_map_eq]
    rfl

theorem singleTable_not_special (i : Instruction) (h : isSingleSpecial i = false) :
    singleTable i = .loop [i] := by
  cases i with
  | increment a =>
    match a with
    | 0 => rfl
    | 1 => simp [isSingleSpecial] at h
    | n + 2 => rfl
  | decrement a =>
    match a with
    | 0 => rfl
    | 1 => simp [isSingleSpecial] at h
    | n + 2 => rfl
  | moveRight a => simp [isSingleSpecial] at h
  | moveLeft a => simp [isSingleSpecial] at h
  | _ => rfl

theorem isLoopB_eq_false_of_ne (i : Instruction) (h : ∀ m, i ≠ .loop m) : isLoopB i = false := by
  cases i with
  | loop l => exact absurd rfl (h l)
  | _ => rfl

theorem unrollCore_loop_or_not (l : List Instruction) :
    unrollCore l = .loop l ∨ ∀ m, unrollCore l ≠ .loop m := by
  unfold unrollCore
  split
  · split
    · split
      · exact Or.inr fun m => by simp
      · split <;> exact Or.inr fun m => by simp
      · exact Or.inr fun m => by simp
    · exact Or.inl rfl
  · exact Or.inl rfl

theorem optimizeInstruction_arith (i : Instruction) (h : isArith i = true) :
    optimizeInstruction i = i := by
  refine optimizeInstruction_nonloop i ?_
  cases i <;> simp_all [isArith, isLoopB]

theorem optimize_arith (l : List Instruction) (h : l.all isArith = true) : optimize l = l := by
  induction l with
  | nil => rfl
  | cons a t ih =>
    rw [List.all_cons, Bool.and_eq_true] at h
    show optimizeInstruction a :: optimize t = a :: t
    rw [optimizeInstruction_arith a h.1, ih h.2]

theorem singleTable_not_arith (i : Instruction) : isArith (singleTable i) = false := by
  cases i with
  | increment a => match a with | 0 => rfl | 1 => rfl | n + 2 => rfl
  | decrement a => match a with | 0 => rfl | 1 => rfl | n + 2 => rfl
  | _ => rfl

theorem unrollCore_not_arith (l : List Instruction) : isArith (unrollCore l) = false := by
  unfold unrollCore
  split
  · split
    · split
      · rfl
      · split <;> rfl
      · rfl
    · rfl
  · rfl

theorem isArith_optimizeInstruction (i : Instruction) :
    isArith (optimizeInstruction i) = isArith i := by
  cases i with
  | loop l =>
    match l with
    | [i0] => rw [optimizeInstruction_loop_single, singleTable_not_arith]; rfl
    | [] => rw [optimizeInstruction_loop_of_ne_one _ (by simp), unrollCore_not_arith]; rfl
    | a :: b :: t =>
      rw [optimizeInstruction_loop_of_ne_one _ (by simp), unrollCore_not_arith]; rfl
  | _ => rw [optimizeInstruction_nonloop _ (by rfl)]

theorem all_arith_optimize (l : List Instruction) :
    (optimize l).all isArith = l.all isArith := by
  induction l with
  | nil => rfl
  | cons a t ih => simp [optimize, isArith_optimizeInstruction] at ih ⊢; rw [ih]

theorem scanBody_all_arith (l : List Instruction) :
    ∀ (cell : Int) (ops : OpsMap), l.all isArith = true →
      (scanBody l cell ops).1 = true ∧ (scanBody l cell ops).2.1 = cell + netMove l := by
  induction l with
  | nil => intro cell ops _; simp [scanBody, netMove]
  | cons a t ih =>
    intro cell ops h
    rw [List.all_cons, Bool.and_eq_true] at h
    have hd : netMove (a :: t) = moveDelta a + netMove t := by simp [netMove]
    cases a with
    | moveRight n =>
      have hh := ih (cell + n) ops h.2
      refine ⟨hh.1, ?_⟩
      show (scanBody t (cell + n) ops).2.1 = cell + netMove (Instruction.moveRight n :: t)
      rw [hh.2, hd]; simp [moveDelta]; ring
    | moveLeft n =>
      have hh := ih (cell - n) ops h.2
      refine ⟨hh.1, ?_⟩
      show (scanBody t (cell - n) ops).2.1 = cell + netMove (Instruction.moveLeft n :: t)
      rw [hh.2, hd]; simp [moveDelta]; ring
    | increment n =>
      have hh := ih cell (opsUpdate ops cell true n) h.2
      refine ⟨hh.1, ?_⟩
      show (scanBody t cell (opsUpdate ops cell true n)).2.1 =
        cell + netMove (Instruction.increment n :: t)
      rw [hh.2, hd]; simp [moveDelta]
    | decrement n =>
      have hh := ih cell (opsUpdate ops cell false n) h.2
      refine ⟨hh.1, ?_⟩
      show (scanBody t cell (opsUpdate ops cell false n)).2.1 =
        cell + netMove (Instruction.decrement n :: t)
      rw [hh.2, hd]; simp [moveDelta]
    | output => exact absurd h.1 (by simp [isArith])
    | input => exact absurd h.1 (by simp [isArith])
    | loop l => exact absurd h.1 (by simp [isArith])
    | moveRightUntilZero n => exact absurd h.1 (by simp [isArith])
    | moveLeftUntilZero n => exact absurd h.1 (by simp [isArith])
    | setToZero => exact absurd h.1 (by simp [isArith])
    | withMultiplier l => exact absurd h.1 (by simp [isArith])
    | moveValueRight n => exact absurd h.1 (by simp [isArith])
    | moveValueLeft n => exact absurd h.1 (by simp [isArith])

theorem scanBody_not_arith (l : List Instruction) :
    ∀ (cell : Int) (ops : OpsMap), l.all isArith = false →
      (scanBody l cell ops).1 = false := by
  induction l with
  | nil => intro _ _ h; simp at h
  | cons a t ih =>
    intro cell ops h
    rw [List.all_cons] at h
    cases a with
    | moveRight n =>
      rw [show isArith (.moveRight n) = true from rfl, Bool.true_and] at h
      exact ih (cell + n) ops h
    | moveLeft n =>
      rw [show isArith (.moveLeft n) = true from rfl, Bool.true_and] at h
      exact ih (cell - n) ops h
    | increment n =>
      rw [show isArith (.increment n) = true from rfl, Bool.true_and] at h
      exact ih cell (opsUpdate ops cell true n) h
    | decrement n =>
      rw [show isArith (.decrement n) = true from rfl, Bool.true_and] at h
      exact ih cell (opsUpdate ops cell false n) h
    | output => rfl
    | input => rfl
    | loop l => rfl
    | moveRightUntilZero n => rfl
    | moveLeftUntilZero n => rfl
    | setToZero => rfl
    | withMultiplier l => rfl
    | moveValueRight n => rfl
    | moveValueLeft n => rfl

theorem scanBody_true_all_arith (l : List Instruction) :
    ∀ (cell : Int) (ops : OpsMap), (scanBody l cell ops).1 = true → l.all isArith = true := by
  intro cell ops h
  by_contra hc
  rw [scanBody_not_arith l cell ops (by simpa using hc)] at h
  exact Bool.false_ne_true h

/-- C9 (confirmed): a Loop whose body is exactly one instruction goes
through the fixed substitution table of `Optimizer::optimize_loop`:
`[MoveRight(n)]` becomes `MoveRightUntilZero(n)`, `[MoveLeft(n)]` becomes
`MoveLeftUntilZero(n)`, `[Increment(1)]` and `[Decrement(1)]` become
`SetToZero`, and any other single-instruction body is kept as a
one-instruction Loop. -/
theorem single_instruction_loop_table :
    (∀ n, optimizeInstruction (.loop [.moveRight n]) = .moveRightUntilZero n) ∧
    (∀ n, optimizeInstruction (.loop [.moveLeft n]) = .moveLeftUntilZero n) ∧
    optimizeInstruction (.loop [.increment 1]) = .setToZero ∧
    optimizeInstruction (.loop [.decrement 1]) = .setToZero ∧
    (∀ i, isSingleSpecial i = false → optimizeInstruction (.loop [i]) = .loop [i]) := by
  refine ⟨fun n => ?_, fun n => ?_, ?_, ?_, fun i h => ?_⟩
  · rw [optimizeInstruction_loop_single]; rfl
  · rw [optimizeInstruction_loop_single]; rfl
  · rw [optimizeInstruction_loop_single]; rfl
  · rw [optimizeInstruction_loop_single]; rfl
  · rw [optimizeInstruction_loop_single, singleTable_not_special i h]

/-- Witness for C9: the hypothesis of the last conjunct discharged at the
concrete single-instruction body `[Output]`, which the table leaves as a
Loop. -/
theorem single_instruction_loop_table_witness :
    optimizeInstruction (.loop [.output]) = .loop [.output] :=
  single_instruction_loop_table.2.2.2.2 .output rfl

/-- C7 (corrected) counterexample: for the one-instruction body
`[Loop [Decrement 1]]` the optimizer keeps the outer Loop with its body
*unoptimized* — the inner `[-]` idiom, which on its own rewrites to
`SetToZero`, survives untouched — refuting the claim that bodies are
recursively optimized before a rule is applied even for single-instruction
bodies. -/
theorem single_body_not_recursively_optimized :
    optimizeInstruction (.loop [.loop [.decrement 1]]) = .loop [.loop [.decrement 1]] ∧
    optimizeInstruction (.loop [.decrement 1]) = .setToZero ∧
    Instruction.loop [.loop [.decrement 1]] ≠ .loop [.setToZero] := by
  refine ⟨?_, ?_, by simp⟩
  · rw [optimizeInstruction_loop_single]; rfl
  · rw [optimizeInstruction_loop_single]; rfl

/-- C7 (corrected, amended): bodies of two or more instructions are
recursively optimized before the unrolling rule considers the Loop — a
kept Loop holds exactly the optimized body — but a single-instruction body
is pattern-matched raw: a kept one-instruction Loop holds the original
instruction, not its optimized form. -/
theorem loop_body_optimization :
    (∀ (b : List Instruction) (l : List Instruction), 2 ≤ b.length →
      optimizeInstruction (.loop b) = .loop l → l = optimize b) ∧
    (∀ (i : Instruction) (l : List Instruction),
      optimizeInstruction (.loop [i]) = .loop l → l = [i]) := by
  constructor
  · intro b l hb h
    rw [optimizeInstruction_loop_of_ne_one _ (by omega)] at h
    rcases unrollCore_loop_or_not (optimize b) with heq | hne
    · rw [heq] at h
      exact (Instruction.loop.injEq _ _ ▸ h).symm
    · exact absurd h (hne l)
  · intro i l h
    rw [optimizeInstruction_loop_single] at h
    by_cases hs : isSingleSpecial i = true
    · cases i with
      | moveRight a => simp [singleTable] at h
      | moveLeft a => simp [singleTable] at h
      | increment a =>
        match a with
        | 1 => simp [singleTable] at h
        | 0 | n + 2 => simp [isSingleSpecial] at hs
      | decrement a =>
        match a with
        | 1 => simp [singleTable] at h
        | 0 | n + 2 => simp [isSingleSpecial] at hs
      | _ => simp [isSingleSpecial] at hs
    · rw [singleTable_not_special i (by simpa using hs)] at h
      exact (Instruction.loop.injEq _ _ ▸ h).symm

/-- Witness for C7's amended theorem: both conjuncts applied at concrete
inputs (a kept two-instruction Loop and a kept one-instruction Loop). -/
theorem loop_body_optimization_witness :
    ([Instruction.output, .output] : List Instruction) = optimize [.output, .output] ∧
    ([Instruction.output] : List Instruction) = [.output] := by
  have ho : optimize [Instruction.output, .output] = [.output, .output] := by
    show [optimizeInstruction .output, optimizeInstruction .output] = _
    rw [optimizeInstruction_nonloop .output rfl]
  refine ⟨loop_body_optimization.1 [.output, .output] [.output, .output] (by simp) ?_,
    loop_body_optimization.2 .output [.output] ?_⟩
  · rw [optimizeInstruction_loop_of_ne_one _ (by simp), ho]
    rfl
  · rw [optimizeInstruction_loop_single]
    rfl

theorem singleTable_fixed (i : Instruction) :
    optimizeInstruction (singleTable i) = singleTable i := by
  by_cases hs : isSingleSpecial i = true
  · cases i with
    | moveRight a => exact optimizeInstruction_nonloop _ rfl
    | moveLeft a => exact optimizeInstruction_nonloop _ rfl
    | increment a =>
      match a with
      | 1 => exact optimizeInstruction_nonloop _ rfl
      | 0 | n + 2 => simp [isSingleSpecial] at hs
    | decrement a =>
      match a with
      | 1 => exact optimizeInstruction_nonloop _ rfl
      | 0 | n + 2 => simp [isSingleSpecial] at hs
    | _ => simp [isSingleSpecial] at hs
  · rw [singleTable_not_special i (by simpa using hs), optimizeInstruction_loop_single,
      singleTable_not_special i (by simpa using hs)]

theorem optimizeInstruction_idem (i : Instruction) :
    optimizeInstruction (optimizeInstruction i) = optimizeInstruction i := by
  induction i using optimizeInstruction.induct with
  | case1 i0 =>
    rw [optimizeInstruction_loop_single]
    exact singleTable_fixed i0
  | case2 instrs h1 ih =>
    have hlen : instrs.length ≠ 1 := by
      intro h
      rcases List.length_eq_one.mp h with ⟨i0, hi⟩
      exact h1 i0 hi
    rw [optimizeInstruction_loop_of_ne_one _ hlen]
    have hopt : optimize (optimize instrs) = optimize instrs := by
      simp only [optimize, List.map_map]
      exact List.map_congr_left fun x hx => ih ⟨x, hx⟩
    rcases unrollCore_loop_or_not (optimize instrs) with heq | hne
    · rw [heq, optimizeInstruction_loop_of_ne_one _ (by simpa [optimize] using hlen),
        hopt, heq]
    · rw [optimizeInstruction_nonloop _ (isLoopB_eq_false_of_ne _ hne)]
  | case3 i h1 h2 =>
    have hi : isLoopB i = false := by
      cases i with
      | loop l => exact absurd rfl (h2 l)
      | _ => rfl
    rw [optimizeInstruction_nonloop i hi, optimizeInstruction_nonloop i hi]

/-- C8 (confirmed): the optimizer is idempotent — running the Optimizer
iterator over its own output reproduces that output structurally, for every
program. -/
theorem optimize_idem (p : List Instruction) : optimize (optimize p) = optimize p := by
  simp only [optimize, List.map_map]
  exact List.map_congr_left fun x _ => optimizeInstruction_idem x

/-- Claim-side notion: the accumulated signed byte delta a body applies at
relative offset `target` over one pass (Increment adds, Decrement
subtracts; MoveRight/MoveLeft shift the walking offset). -/
def deltaAt : List Instruction → Int → Int → Int → Int
  | [], _, _, acc => acc
  | .moveRight a :: rest, target, pos, acc => deltaAt rest target (pos + a) acc
  | .moveLeft a :: rest, target, pos, acc => deltaAt rest target (pos - a) acc
  | .increment a :: rest, target, pos, acc =>
    deltaAt rest target pos (if pos = target then acc + a else acc)
  | .decrement a :: rest, target, pos, acc =>
    deltaAt rest target pos (if pos = target then acc - a else acc)
  | _ :: rest, target, pos, acc => deltaAt rest target pos acc

theorem unrollCore_eq_of_unrollable (l : List Instruction)
    (h1 : (scanBody l 0 []).1 = true) (h2 : (scanBody l 0 []).2.1 = 0)
    (h3 : opsLookup (scanBody l 0 []).2.2 0 = some (false, 1)) :
    unrollCore l =
      match opsRemove (scanBody l 0 []).2.2 0 with
      | [] => .setToZero
      | [(c, true, 1)] =>
        if 0 < c then .moveValueRight c.toNat else .moveValueLeft c.natAbs
      | rest => .withMultiplier (emitBody rest 0 0 rest.length) := by
  unfold unrollCore
  rw [if_pos ⟨h1, h2⟩, h3]

theorem unrollCore_unrollable_not_loop (l : List Instruction)
    (h1 : (scanBody l 0 []).1 = true) (h2 : (scanBody l 0 []).2.1 = 0)
    (h3 : opsLookup (scanBody l 0 []).2.2 0 = some (false, 1)) :
    ∀ m, unrollCore l ≠ .loop m := by
  intro m
  rw [unrollCore_eq_of_unrollable l h1 h2 h3]
  split
  · simp
  · split <;> simp
  · simp

theorem unrollCore_eq_loop_of_not (l : List Instruction)
    (h : ¬((scanBody l 0 []).1 = true ∧ (scanBody l 0 []).2.1 = 0 ∧
      opsLookup (scanBody l 0 []).2.2 0 = some (false, 1))) :
    unrollCore l = .loop l := by
  unfold unrollCore
  by_cases h12 : (scanBody l 0 []).1 = true ∧ (scanBody l 0 []).2.1 = 0
  · rw [if_pos h12]
    have h3 : opsLookup (scanBody l 0 []).2.2 0 ≠ some (false, 1) :=
      fun hh => h ⟨h12.1, h12.2, hh⟩
    rcases hL : opsLookup (scanBody l 0 []).2.2 0 with _ | ⟨flag, amt⟩
    · rfl
    · rcases flag with _ | _
      · match amt with
        | 1 => exact absurd hL h3
        | 0 => rfl
        | n + 2 => rfl
      · rfl
  · rw [if_neg h12]

/-- C4 (corrected) counterexample: for the two-instruction body
`[Increment 1, Decrement 2]` every condition of the claim holds — all
instructions are in {MoveRight, MoveLeft, Increment, Decrement}, the net
pointer displacement is 0, and the accumulated wrapping byte delta at
offset 0 is −1 mod 256 — yet the loop is NOT unrolled: the optimizer keeps
it as a Loop because its bookkeeping records the offset-0 entry as
(increment-first, magnitude 255), which fails the literal
`(false, Wrapping(1))` test. -/
theorem unroll_condition_counterexample :
    ([Instruction.increment 1, .decrement 2].all isArith = true) ∧
    netMove [Instruction.increment 1, .decrement 2] = 0 ∧
    deltaAt [Instruction.increment 1, .decrement 2] 0 0 0 % 256 = 255 ∧
    optimizeInstruction (.loop [.increment 1, .decrement 2]) =
      .loop [.increment 1, .decrement 2] := by
  refine ⟨by decide, by decide, by decide, ?_⟩
  rw [optimizeInstruction_loop_of_ne_one _ (by simp), optimize_arith _ (by decide)]
  rfl

/-- C4 (corrected, amended): a multi-instruction Loop body is unrolled if
and only if every instruction in it is one of MoveRight, MoveLeft,
Increment, Decrement, the net pointer displacement over one pass is exactly
zero, and the bookkeeping entry recorded at offset 0 is exactly
(first-direction = Decrement, accumulated magnitude 1) — a −1 mod 256 delta
recorded with Increment first (e.g. as (increment-first, 255)) does not
unroll; any body violating one of these conditions is kept as a Loop with
its recursively optimized body. -/
theorem multi_body_unroll_condition (b : List Instruction) (hb : 2 ≤ b.length) :
    (b.all isArith = true ∧ netMove b = 0 ∧
        opsLookup (scanBody b 0 []).2.2 0 = some (false, 1) →
      ∀ m, optimizeInstruction (.loop b) ≠ .loop m) ∧
    (¬(b.all isArith = true ∧ netMove b = 0 ∧
        opsLookup (scanBody b 0 []).2.2 0 = some (false, 1)) →
      optimizeInstruction (.loop b) = .loop (optimize b)) := by
  constructor
  · rintro ⟨hA, hN, hL⟩ m
    rw [optimizeInstruction_loop_of_ne_one _ (by omega), optimize_arith b hA]
    have hs := scanBody_all_arith b 0 [] hA
    exact unrollCore_unrollable_not_loop b hs.1 (by rw [hs.2, hN]; simp) hL m
  · intro hn
    rw [optimizeInstruction_loop_of_ne_one _ (by omega)]
    by_cases hA : b.all isArith = true
    · rw [optimize_arith b hA]
      apply unrollCore_eq_loop_of_not
      rintro ⟨h1, h2, h3⟩
      have hs := scanBody_all_arith b 0 [] hA
      rw [hs.2] at h2
      exact hn ⟨hA, by omega, h3⟩
    · apply unrollCore_eq_loop_of_not
      rintro ⟨h1, _, _⟩
      have hA2 := scanBody_true_all_arith (optimize b) 0 [] h1
      rw [all_arith_optimize] at hA2
      exact hA hA2

/-- Witness for C4's amended theorem: the not-unrolled direction applied to
the concrete body `[Increment 1, Decrement 2]` (whose offset-0 record is
(increment-first, 255)). -/
theorem multi_body_unroll_condition_witness :
    optimizeInstruction (.loop [.increment 1, .decrement 2]) =
      .loop (optimize [.increment 1, .decrement 2]) :=
  (multi_body_unroll_condition [.increment 1, .decrement 2] (by simp)).2 (by decide)

/-- C5 (corrected) counterexample: the body
`[Decrement 1, MoveRight 1, Increment 1, Decrement 1, MoveLeft 1]` is
unrollable and has NO offset other than 0 carrying a non-zero accumulated
delta (the +1 and −1 at offset 1 cancel), so the claim predicts
`SetToZero`; the code instead produces `WithMultiplier []`, because the
cancelled offset still occupies a bookkeeping map entry. -/
theorem classification_counterexample :
    optimizeInstruction
        (.loop [.decrement 1, .moveRight 1, .increment 1, .decrement 1, .moveLeft 1]) =
      .withMultiplier [] ∧
    (opsRemove
        (scanBody [.decrement 1, .moveRight 1, .increment 1, .decrement 1, .moveLeft 1]
          0 []).2.2 0).all (fun e => e.2.2 == 0) = true ∧
    deltaAt [Instruction.decrement 1, .moveRight 1, .increment 1, .decrement 1, .moveLeft 1]
        1 0 0 = 0 ∧
    (Instruction.withMultiplier [] ≠ .setToZero) := by
  refine ⟨?_, by decide, by decide, by simp⟩
  rw [optimizeInstruction_loop_of_ne_one _ (by simp), optimize_arith _ (by decide)]
  rfl

/-- C5 (corrected, amended): when a multi-instruction body is unrollable,
the replacement is classified by the bookkeeping map entries remaining
after removing offset 0 — entries whose accumulated magnitude is zero still
count — with the fused-move rewrite requiring the single remaining entry to
be recorded as exactly (increment-first, magnitude 1): no remaining entry
gives SetToZero, a single (increment-first, 1) entry gives
MoveValueRight(offset) for positive offset or MoveValueLeft(|offset|)
otherwise, and anything else gives a WithMultiplier node wrapping the
emitted body. -/
theorem unrolled_loop_classification (b : List Instruction) (hb : 2 ≤ b.length)
    (hA : b.all isArith = true) (hN : netMove b = 0)
    (hL : opsLookup (scanBody b 0 []).2.2 0 = some (false, 1)) :
    optimizeInstruction (.loop b) =
      match opsRemove (scanBody b 0 []).2.2 0 with
      | [] => .setToZero
      | [(c, true, 1)] =>
        if 0 < c then .moveValueRight c.toNat else .moveValueLeft c.natAbs
      | rest => .withMultiplier (emitBody rest 0 0 rest.length) := by
  rw [optimizeInstruction_loop_of_ne_one _ (by omega), optimize_arith b hA]
  have hs := scanBody_all_arith b 0 [] hA
  exact unrollCore_eq_of_unrollable b hs.1 (by rw [hs.2, hN]; simp) hL

/-- Witness for C5's amended theorem: the classification applied to the
concrete body `[Decrement 1, MoveRight 1, Increment 1, MoveLeft 1]`, whose
single remaining entry (offset 1, increment-first, magnitude 1) yields
`MoveValueRight 1`. -/
theorem unrolled_loop_classification_witness :
    optimizeInstruction (.loop [.decrement 1, .moveRight 1, .increment 1, .moveLeft 1]) =
      match opsRemove
          (scanBody [.decrement 1, .moveRight 1, .increment 1, .moveLeft 1] 0 []).2.2 0 with
        | [] => .setToZero
        | [(c, true, 1)] =>
          if 0 < c then .moveValueRight c.toNat else .moveValueLeft c.natAbs
        | rest => .withMultiplier (emitBody rest 0 0 rest.length) :=
  unrolled_loop_classification [.decrement 1, .moveRight 1, .increment 1, .moveLeft 1]
    (by simp) (by decide) (by decide) (by decide)

/-- The sequence of relative offsets at which a body applies its
Increment/Decrement instructions, replaying pointer moves starting from
`pos`. -/
def visitOffsets : List Instruction → Int → List Int
  | [], _ => []
  | .moveRight a :: rest, pos => visitOffsets rest (pos + a)
  | .moveLeft a :: rest, pos => visitOffsets rest (pos - a)
  | .increment _ :: rest, pos => pos :: visitOffsets rest pos
  | .decrement _ :: rest, pos => pos :: visitOffsets rest pos
  | _ :: rest, pos => visitOffsets rest pos

/-- The Increment/Decrement subsequence of an instruction list. -/
def arithOf : List Instruction → List Instruction
  | [] => []
  | .increment a :: rest => .increment a :: arithOf rest
  | .decrement a :: rest => .decrement a :: arithOf rest
  | _ :: rest => arithOf rest

theorem emitBody_cons_nz (c : Int) (flag : Bool) (amt : Nat)
    (rest : List (Int × Bool × Nat)) (cur : Int) (i total : Nat) (hz : amt ≠ 0) :
    emitBody ((c, flag, amt) :: rest) cur i total =
      (if 0 < c - cur then Instruction.moveRight (c - cur).toNat
        else Instruction.moveLeft (c - cur).natAbs) ::
      (if flag then Instruction.increment amt else Instruction.decrement amt) ::
      ((if i = total - 1 then
          [if 0 < c then Instruction.moveLeft c.toNat else Instruction.moveRight c.natAbs]
        else []) ++ emitBody rest c (i + 1) total) := by
  simp [emitBody, hz]

theorem visitOffsets_move (c cur : Int) (rest : List Instruction) :
    visitOffsets
      ((if 0 < c - cur then Instruction.moveRight (c - cur).toNat
        else Instruction.moveLeft (c - cur).natAbs) :: rest) cur = visitOffsets rest c := by
  by_cases hm : 0 < c - cur
  · rw [if_pos hm]
    show visitOffsets rest (cur + ((c - cur).toNat : Int)) = _
    rw [Int.toNat_of_nonneg (le_of_lt hm)]
    norm_num
  · rw [if_neg hm]
    show visitOffsets rest (cur - ((c - cur).natAbs : Int)) = _
    have hla : ((c - cur).natAbs : Int) = -(c - cur) := by omega
    rw [hla]
    norm_num

theorem arithOf_move (c cur : Int) (rest : List Instruction) :
    arithOf
      ((if 0 < c - cur then Instruction.moveRight (c - cur).toNat
        else Instruction.moveLeft (c - cur).natAbs) :: rest) = arithOf rest := by
  split <;> rfl

theorem visitOffsets_arith (flag : Bool) (amt : Nat) (pos : Int) (rest : List Instruction) :
    visitOffsets
      ((if flag then Instruction.increment amt else Instruction.decrement amt) :: rest) pos =
      pos :: visitOffsets rest pos := by
  cases flag <;> rfl

theorem arithOf_arith (flag : Bool) (amt : Nat) (rest : List Instruction) :
    arithOf ((if flag then Instruction.increment amt else Instruction.decrement amt) :: rest) =
      (if flag then Instruction.increment amt else Instruction.decrement amt) ::
        arithOf rest := by
  cases flag <;> rfl

theorem visitOffsets_backmove (c pos : Int) :
    visitOffsets
      [if 0 < c then Instruction.moveLeft c.toNat else Instruction.moveRight c.natAbs]
      pos = [] := by
  split <;> rfl

theorem arithOf_backmove (c : Int) :
    arithOf
      [if 0 < c then Instruction.moveLeft c.toNat else Instruction.moveRight c.natAbs] = [] := by
  split <;> rfl

theorem emitBody_spec (l : List (Int × Bool × Nat)) :
    ∀ (cur : Int) (i total : Nat), i + l.length = total →
      visitOffsets (emitBody l cur i total) cur =
        (l.filter fun e => e.2.2 != 0).map (fun e => e.1) ∧
      arithOf (emitBody l cur i total) =
        (l.filter fun e => e.2.2 != 0).map
          (fun e => if e.2.1 then Instruction.increment e.2.2
            else Instruction.decrement e.2.2) := by
  induction l with
  | nil => intro cur i total _; exact ⟨rfl, rfl⟩
  | cons e rest ih =>
    rintro cur i total h
    obtain ⟨c, flag, amt⟩ := e
    rw [List.length_cons] at h
    by_cases hz : amt = 0
    · subst hz
      have he : emitBody ((c, flag, 0) :: rest) cur i total = emitBody rest cur (i + 1) total := by
        simp [emitBody]
      have hf : ((c, flag, (0 : Nat)) :: rest).filter (fun e => e.2.2 != 0) =
          rest.filter (fun e => e.2.2 != 0) := by
        simp [List.filter_cons]
      rw [he, hf]
      exact ih cur (i + 1) total (by omega)
    · rw [emitBody_cons_nz c flag amt rest cur i total hz]
      have hf : ((c, flag, amt) :: rest).filter (fun e => e.2.2 != 0) =
          (c, flag, amt) :: rest.filter (fun e => e.2.2 != 0) := by
        simp [List.filter_cons, hz]
      rw [hf]
      by_cases hi : i = total - 1
      · have hr : rest = [] := List.length_eq_zero.mp (by omega)
        subst hr
        rw [if_pos hi,
          show emitBody ([] : List (Int × Bool × Nat)) c (i + 1) total = [] from rfl,
          List.append_nil]
        constructor
        · rw [visitOffsets_move, visitOffsets_arith, visitOffsets_backmove]
          rfl
        · rw [arithOf_move, arithOf_arith, arithOf_backmove]
          rfl
      · rw [if_neg hi, List.nil_append]
        have hih := ih c (i + 1) total (by omega)
        constructor
        · rw [visitOffsets_move, visitOffsets_arith, hih.1]
          rfl
        · rw [arithOf_move, arithOf_arith, hih.2]
          rfl

/-- C6 (corrected) counterexample: for the body
`[Decrement 1, MoveRight 2, Increment 2, MoveLeft 1, Increment 3, MoveLeft 1]`
(which touches offset 2 before offset 1) the generated WithMultiplier body
visits offset 2 first and offset 1 second — the map's first-touch order,
not ascending offset order as the claim states. -/
theorem emission_order_counterexample :
    optimizeInstruction
        (.loop [.decrement 1, .moveRight 2, .increment 2, .moveLeft 1,
          .increment 3, .moveLeft 1]) =
      .withMultiplier [.moveRight 2, .increment 2, .moveLeft 1, .increment 3, .moveLeft 1] ∧
    visitOffsets [.moveRight 2, .increment 2, .moveLeft 1, .increment 3, .moveLeft 1] 0 =
      [2, 1] ∧
    ¬((2 : Int) ≤ 1) := by
  refine ⟨?_, by decide, by decide⟩
  rw [optimizeInstruction_loop_of_ne_one _ (by simp), optimize_arith _ (by decide)]
  rfl

/-- C6 (corrected, amended): the body generated inside a WithMultiplier
replacement visits the touched offsets carrying a non-zero accumulated
magnitude in the order in which the loop body first touched them (the
bookkeeping map's iteration order, modelled here as insertion order;
unordered in the source's hash map) — not ascending offset order — emitting
for each a pointer move from the previous visited offset followed by an
Increment or Decrement of the recorded magnitude. -/
theorem with_multiplier_emission_order (b : List Instruction) (hb : 2 ≤ b.length)
    (em : List Instruction)
    (hw : optimizeInstruction (.loop b) = .withMultiplier em) :
    visitOffsets em 0 =
      ((opsRemove (scanBody b 0 []).2.2 0).filter fun e => e.2.2 != 0).map (fun e => e.1) ∧
    arithOf em =
      ((opsRemove (scanBody b 0 []).2.2 0).filter fun e => e.2.2 != 0).map
        (fun e => if e.2.1 then Instruction.increment e.2.2
          else Instruction.decrement e.2.2) := by
  rw [optimizeInstruction_loop_of_ne_one _ (by omega)] at hw
  by_cases hc : (scanBody (optimize b) 0 []).1 = true ∧
      (scanBody (optimize b) 0 []).2.1 = 0 ∧
      opsLookup (scanBody (optimize b) 0 []).2.2 0 = some (false, 1)
  · obtain ⟨h1, h2, h3⟩ := hc
    have hA : b.all isArith = true := by
      have := scanBody_true_all_arith (optimize b) 0 [] h1
      rwa [all_arith_optimize] at this
    rw [optimize_arith b hA] at hw h1 h2 h3
    rw [unrollCore_eq_of_unrollable b h1 h2 h3] at hw
    split at hw
    · simp at hw
    · split at hw <;> simp at hw
    · rw [Instruction.withMultiplier.injEq] at hw
      rw [← hw]
      exact emitBody_spec _ 0 0 _ (by omega)
  · rw [unrollCore_eq_loop_of_not (optimize b) hc] at hw
    simp at hw

/-- Witness for C6's amended theorem: applied at the concrete body of the
counterexample, whose two surviving map entries are visited in first-touch
order (offset 2, then offset 1). -/
theorem with_multiplier_emission_order_witness :
    visitOffsets [.moveRight 2, .increment 2, .moveLeft 1, .increment 3, .moveLeft 1] 0 =
      ((opsRemove
          (scanBody [.decrement 1, .moveRight 2, .increment 2, .moveLeft 1,
            .increment 3, .moveLeft 1] 0 []).2.2 0).filter
        fun e => e.2.2 != 0).map (fun e => e.1) ∧
    arithOf [.moveRight 2, .increment 2, .moveLeft 1, .increment 3, .moveLeft 1] =
      ((opsRemove
          (scanBody [.decrement 1, .moveRight 2, .increment 2, .moveLeft 1,
            .increment 3, .moveLeft 1] 0 []).2.2 0).filter
        fun e => e.2.2 != 0).map
        (fun e => if e.2.1 then Instruction.increment e.2.2
          else Instruction.decrement e.2.2) :=
  with_multiplier_emission_order
    [.decrement 1, .moveRight 2, .increment 2, .moveLeft 1, .increment 3, .moveLeft 1]
    (by simp)
    [.moveRight 2, .increment 2, .moveLeft 1, .increment 3, .moveLeft 1]
    (by rw [optimizeInstruction_loop_of_ne_one _ (by simp), optimize_arith _ (by decide)]
        rfl)

/-- Modelled from the spec: machine state of the naive direct interpreter
(the spec's correctness oracle, §8; the repository ships no interpreter).
The tape is a byte list (cells beyond it read as 0 and are materialized on
write), plus the current cell index, remaining input and produced output. -/
structure MState where
  tape : List Nat
  pos : Nat
  input : List Nat
  output : List Nat
deriving DecidableEq, Repr

/-- Reading a tape cell: cells beyond the materialized list are 0. -/
def tapeGet (t : List Nat) (p : Nat) : Nat := t.getD p 0

/-- Writing a tape cell, growing the materialized list with zeros first. -/
def tapeSet (t : List Nat) (p : Nat) (v : Nat) : List Nat :=
  (t ++ List.replicate (p + 1 - t.length) 0).set p v

/-- Result of a bounded interpreter run. -/
inductive RunResult where
  | ok (s : MState)
  | fault
  | timeout
deriving DecidableEq, Repr

/-- Modelled from the spec: the naive direct interpreter of the instruction
set (spec §3 table and §8 oracle), with fuel so that the definition is
executable.  One unit of fuel is consumed per executed step, and loop
constructs re-test by re-consuming their own head instruction.  `mult` is
the active scale context: `some m` inside a WithMultiplier body multiplies
every Increment/Decrement amount by `m` (mod 256); a Loop body always
starts with no scale context, mirroring the fresh `has_multiplier = false`
of `CodeGen::generate_instructions` for each lowered sequence.
WithMultiplier reads the scale from the current cell, runs its body scaled,
then stores 0 into the cell the pointer ends at (mirroring the
`ResetMultiplierAndSetToZero` arm of `CodeGen::generate_instruction`,
which zeroes the *current* cell); leftward moves below index 0 fault. -/
def run : Nat → Option Nat → List Instruction → MState → RunResult
  | 0, _, _, _ => .timeout
  | _ + 1, _, [], s => .ok s
  | fuel + 1, m, i :: rest, s =>
    match i with
    | .moveRight a => run fuel m rest { s with pos := s.pos + a }
    | .moveLeft a =>
      if a ≤ s.pos then run fuel m rest { s with pos := s.pos - a } else .fault
    | .increment a =>
      let eff := match m with | some mv => a * mv | none => a
      run fuel m rest
        { s with tape := tapeSet s.tape s.pos ((tapeGet s.tape s.pos + eff) % 256) }
    | .decrement a =>
      let eff := match m with | some mv => a * mv | none => a
      let v := (tapeGet s.tape s.pos % 256 + (256 - eff % 256)) % 256
      run fuel m rest { s with tape := tapeSet s.tape s.pos v }
    | .output => run fuel m rest { s with output := s.output ++ [tapeGet s.tape s.pos] }
    | .input =>
      match s.input with
      | [] => run fuel m rest s
      | v :: vin =>
        run fuel m rest { s with tape := tapeSet s.tape s.pos (v % 256), input := vin }
    | .loop body =>
      if tapeGet s.tape s.pos = 0 then run fuel m rest s
      else
        match run fuel none body s with
        | .ok s' => run fuel m (Instruction.loop body :: rest) s'
        | r => r
    | .moveRightUntilZero st =>
      if tapeGet s.tape s.pos = 0 then run fuel m rest s
      else run fuel m (Instruction.moveRightUntilZero st :: rest) { s with pos := s.pos + st }
    | .moveLeftUntilZero st =>
      if tapeGet s.tape s.pos = 0 then run fuel m rest s
      else if st ≤ s.pos then
        run fuel m (Instruction.moveLeftUntilZero st :: rest) { s with pos := s.pos - st }
      else .fault
    | .setToZero => run fuel m rest { s with tape := tapeSet s.tape s.pos 0 }
    | .withMultiplier body =>
      match run fuel (some (tapeGet s.tape s.pos % 256)) body s with
      | .ok s' => run fuel m rest { s' with tape := tapeSet s'.tape s'.pos 0 }
      | r => r
    | .moveValueRight a =>
      let t1 := tapeSet s.tape (s.pos + a)
        ((tapeGet s.tape (s.pos + a) + tapeGet s.tape s.pos) % 256)
      run fuel m rest { s with tape := tapeSet t1 s.pos 0 }
    | .moveValueLeft a =>
      if a ≤ s.pos then
        let t1 := tapeSet s.tape (s.pos - a)
          ((tapeGet s.tape (s.pos - a) + tapeGet s.tape s.pos) % 256)
        run fuel m rest { s with tape := tapeSet t1 s.pos 0 }
      else .fault
termination_by structural fuel _ _ _ => fuel

/-- C1 (code_bug): the optimizer is NOT semantics-preserving.  For the
well-bracketed program `[->+>+-<<]` the loop body is unrollable, its
bookkeeping map holds the entries (offset 1, +1) and (offset 2, 0), and the
emission skips the zero-magnitude entry at offset 2 — but that entry is the
one carrying the `i == operation_count - 1` index, so the final
move-back-to-origin instruction is skipped with it.  The emitted
replacement `WithMultiplier [MoveRight 1, Increment 1]` leaves the pointer
displaced and zeroes the wrong cell: from tape [1,0,0] at index 0 the
original program ends with tape [0,1,0] at index 0, the optimized one with
tape [1,0,0] at index 1. -/
theorem optimize_changes_semantics :
    optimize [.loop [.decrement 1, .moveRight 1, .increment 1, .moveRight 1,
        .increment 1, .decrement 1, .moveLeft 2]] =
      [.withMultiplier [.moveRight 1, .increment 1]] ∧
    run 100 none
        [.loop [.decrement 1, .moveRight 1, .increment 1, .moveRight 1,
          .increment 1, .decrement 1, .moveLeft 2]]
        ⟨[1, 0, 0], 0, [], []⟩ = .ok ⟨[0, 1, 0], 0, [], []⟩ ∧
    run 100 none [.withMultiplier [.moveRight 1, .increment 1]]
        ⟨[1, 0, 0], 0, [], []⟩ = .ok ⟨[1, 0, 0], 1, [], []⟩ ∧
    (RunResult.ok ⟨[0, 1, 0], 0, [], []⟩ ≠ .ok ⟨[1, 0, 0], 1, [], []⟩) := by
  refine ⟨?_, by decide, by decide, by decide⟩
  show [optimizeInstruction (.loop [.decrement 1, .moveRight 1, .increment 1,
    .moveRight 1, .increment 1, .decrement 1, .moveLeft 2])] = _
  rw [optimizeInstruction_loop_of_ne_one _ (by simp), optimize_arith _ (by decide)]
  rfl

/-- The instruction variant set `CodeGen::generate_instruction`
(src/code_gen.rs) actually matches on: it has arms for `SetMultiplier` and
`ResetMultiplierAndSetToZero` — variants absent from this snapshot's
`instruction.rs` — and no arm for the optimizer's `WithMultiplier`. -/
inductive GenInstruction where
  | moveRight (amount : Nat)
  | moveLeft (amount : Nat)
  | increment (amount : Nat)
  | decrement (amount : Nat)
  | output
  | input
  | loop (instructions : List GenInstruction)
  | moveRightUntilZero (stepSize : Nat)
  | moveLeftUntilZero (stepSize : Nat)
  | setToZero
  | setMultiplier
  | resetMultiplierAndSetToZero
  | moveValueRight (amount : Nat)
  | moveValueLeft (amount : Nat)

/-- Modelled from the spec: the lowering of the optimizer's
`WithMultiplier(body)` node, which is missing from src/ (code_gen.rs has no
arm for it and instruction.rs has no SetMultiplier/Reset variants).  Spec
§9 resolves the mismatch by lowering the node as load-scale-register /
body-under-scale / zero-and-drop, i.e. the three-opcode sequence
`SetMultiplier; body; ResetMultiplierAndSetToZero`. -/
def lowerWithMultiplier (body : List GenInstruction) : List GenInstruction :=
  .setMultiplier :: (body ++ [.resetMultiplierAndSetToZero])

/-- Runtime state of the code `CodeGen` emits: the heap tape (`cells`,
cells beyond the materialized list read 0 — tape growth is the runtime
helper's concern), the current cell index, the `multiplier` stack slot,
remaining input and produced output. -/
structure GState where
  cells : List Nat
  pos : Nat
  mult : Nat
  input : List Nat
  output : List Nat
deriving DecidableEq, Repr

/-- Result of a bounded run of generated code. -/
inductive GenResult where
  | ok (s : GState)
  | fault
  | timeout
deriving DecidableEq, Repr

/-- The runtime behavior of the code `CodeGen::generate_instruction` emits,
arm by arm, as a bounded interpreter.  `hm` is the compile-time
`has_multiplier` flag that `generate_instructions` threads by mutable
reference through a lowered sequence (fresh `false` for each sequence —
so a Loop body starts unscaled — set by the SetMultiplier arm, cleared by
the ResetMultiplierAndSetToZero arm); when it is set, the
Increment/Decrement arm multiplies the amount by the loaded multiplier
slot (`build_int_mul` on i8 = mod 256).  The leftward underflow checks
(the inline signed `SLT 0` test of MoveLeft, the fail flags of the
`moveLeftUntilZero` / `moveValueLeft` helpers) fault; helper routines are
modelled from spec §6. -/
def genRun : Nat → Bool → List GenInstruction → GState → GenResult
  | 0, _, _, _ => .timeout
  | _ + 1, _, [], s => .ok s
  | fuel + 1, hm, i :: rest, s =>
    match i with
    | .moveRight a => genRun fuel hm rest { s with pos := s.pos + a }
    | .moveLeft a =>
      if a ≤ s.pos then genRun fuel hm rest { s with pos := s.pos - a } else .fault
    | .increment a =>
      let eff := if hm then a * s.mult else a
      let v := (tapeGet s.cells s.pos + eff) % 256
      genRun fuel hm rest { s with cells := tapeSet s.cells s.pos v }
    | .decrement a =>
      let eff := if hm then a * s.mult else a
      let v := (tapeGet s.cells s.pos % 256 + (256 - eff % 256)) % 256
      genRun fuel hm rest { s with cells := tapeSet s.cells s.pos v }
    | .output => genRun fuel hm rest { s with output := s.output ++ [tapeGet s.cells s.pos] }
    | .input =>
      match s.input with
      | [] => genRun fuel hm rest s
      | v :: vin =>
        genRun fuel hm rest { s with cells := tapeSet s.cells s.pos (v % 256), input := vin }
    | .loop body =>
      if tapeGet s.cells s.pos = 0 then genRun fuel hm rest s
      else
        match genRun fuel false body s with
        | .ok s' => genRun fuel hm (GenInstruction.loop body :: rest) s'
        | r => r
    | .moveRightUntilZero st =>
      if tapeGet s.cells s.pos = 0 then genRun fuel hm rest s
      else genRun fuel hm (GenInstruction.moveRightUntilZero st :: rest)
        { s with pos := s.pos + st }
    | .moveLeftUntilZero st =>
      if tapeGet s.cells s.pos = 0 then genRun fuel hm rest s
      else if st ≤ s.pos then
        genRun fuel hm (GenInstruction.moveLeftUntilZero st :: rest) { s with pos := s.pos - st }
      else .fault
    | .setToZero => genRun fuel hm rest { s with cells := tapeSet s.cells s.pos 0 }
    | .setMultiplier => genRun fuel true rest { s with mult := tapeGet s.cells s.pos }
    | .resetMultiplierAndSetToZero =>
      genRun fuel false rest { s with cells := tapeSet s.cells s.pos 0 }
    | .moveValueRight a =>
      let t1 := tapeSet s.cells (s.pos + a)
        ((tapeGet s.cells (s.pos + a) + tapeGet s.cells s.pos) % 256)
      genRun fuel hm rest { s with cells := tapeSet t1 s.pos 0 }
    | .moveValueLeft a =>
      if a ≤ s.pos then
        let t1 := tapeSet s.cells (s.pos - a)
          ((tapeGet s.cells (s.pos - a) + tapeGet s.cells s.pos) % 256)
        genRun fuel hm rest { s with cells := tapeSet t1 s.pos 0 }
      else .fault
termination_by structural fuel _ _ _ => fuel

/-- The lowered instructions whose generated code runs straight-line, one
fuel unit each: exactly what the optimizer ever places inside a
WithMultiplier body. -/
def isSimpleG : GenInstruction → Bool
  | .moveRight _ => true
  | .moveLeft _ => true
  | .increment _ => true
  | .decrement _ => true
  | _ => false

/-- Effect of a straight-line body on (tape, index) under scale `mult` —
`none` on a leftward underflow fault or a non-straight-line instruction. -/
def applySimple (mult : Nat) : List GenInstruction → List Nat × Nat → Option (List Nat × Nat)
  | [], st => some st
  | .moveRight a :: rest, (t, p) => applySimple mult rest (t, p + a)
  | .moveLeft a :: rest, (t, p) =>
    if a ≤ p then applySimple mult rest (t, p - a) else none
  | .increment a :: rest, (t, p) =>
    applySimple mult rest (tapeSet t p ((tapeGet t p + a * mult) % 256), p)
  | .decrement a :: rest, (t, p) =>
    applySimple mult rest (tapeSet t p ((tapeGet t p % 256 + (256 - a * mult % 256)) % 256), p)
  | _ :: _, _ => none

theorem genRun_simple (body : List GenInstruction) :
    ∀ (X : List GenInstruction) (fuel : Nat) (s : GState), body.all isSimpleG = true →
      genRun (fuel + body.length) true (body ++ X) s =
        match applySimple s.mult body (s.cells, s.pos) with
        | some (t, p) => genRun fuel true X { s with cells := t, pos := p }
        | none => .fault := by
  induction body with
  | nil => intro X fuel s _; rfl
  | cons i rest ih =>
    intro X fuel s h
    rw [List.all_cons, Bool.and_eq_true] at h
    rw [List.length_cons, show fuel + (rest.length + 1) = (fuel + rest.length) + 1 from by omega]
    cases i with
    | moveRight a =>
      show genRun (fuel + rest.length) true (rest ++ X) { s with pos := s.pos + a } = _
      rw [ih X fuel { s with pos := s.pos + a } h.2]
      rfl
    | moveLeft a =>
      show (if a ≤ s.pos then
          genRun (fuel + rest.length) true (rest ++ X) { s with pos := s.pos - a }
        else .fault) = _
      by_cases hp : a ≤ s.pos
      · rw [if_pos hp, ih X fuel { s with pos := s.pos - a } h.2]
        show _ = match (if a ≤ s.pos then applySimple s.mult rest (s.cells, s.pos - a)
          else none) with
          | some (t, p) => genRun fuel true X { s with cells := t, pos := p }
          | none => .fault
        rw [if_pos hp]
      · rw [if_neg hp]
        show GenResult.fault = match (if a ≤ s.pos then applySimple s.mult rest
          (s.cells, s.pos - a) else none) with
          | some (t, p) => genRun fuel true X { s with cells := t, pos := p }
          | none => .fault
        rw [if_neg hp]
    | increment a =>
      show genRun (fuel + rest.length) true (rest ++ X)
          { s with cells := tapeSet s.cells s.pos ((tapeGet s.cells s.pos + a * s.mult) % 256) } =
        _
      rw [ih X fuel _ h.2]
      rfl
    | decrement a =>
      show genRun (fuel + rest.length) true (rest ++ X) { s with cells := tapeSet s.cells s.pos ((tapeGet s.cells s.pos % 256 + (256 - a * s.mult % 256)) % 256) } = _
      rw [ih X fuel _ h.2]
      rfl
    | output => simp [isSimpleG] at h
    | input => simp [isSimpleG] at h
    | loop l => simp [isSimpleG] at h
    | moveRightUntilZero n => simp [isSimpleG] at h
    | moveLeftUntilZero n => simp [isSimpleG] at h
    | setToZero => simp [isSimpleG] at h
    | setMultiplier => simp [isSimpleG] at h
    | resetMultiplierAndSetToZero => simp [isSimpleG] at h
    | moveValueRight n => simp [isSimpleG] at h
    | moveValueLeft n => simp [isSimpleG] at h

/-- C2 (corrected) counterexample: lowering
`WithMultiplier [MoveRight 1, Increment 1]` (a node the optimizer really
emits, see C1) and running it from tape [1,0,0] at index 0 stores the
final 0 into the cell the pointer ends at (index 1), NOT into the origin
cell: the origin still holds 1 afterwards.  The claim's "then storing 0
into the origin cell" is false when the body displaces the pointer. -/
theorem with_multiplier_lowering_counterexample :
    genRun 100 false (lowerWithMultiplier [.moveRight 1, .increment 1])
        ⟨[1, 0, 0], 0, 0, [], []⟩ = .ok ⟨[1, 0, 0], 1, 1, [], []⟩ ∧
    tapeGet [1, 0, 0] 0 = 1 ∧ (1 : Nat) ≠ 0 := by
  exact ⟨by decide, by decide, by decide⟩

/-- C2 (corrected, amended): the spec-modelled lowering of
`WithMultiplier(body)` loads the current cell's value into the multiplier
slot, runs the body with the scale active (each Increment/Decrement amount
multiplied by the slot mod 256), then stores 0 into the cell the pointer
ends at after the body — the origin exactly when the body's net
displacement is zero — and then drops the scale context (the continuation
`rest` runs with the flag cleared). -/
theorem with_multiplier_lowering (body : List GenInstruction)
    (h : body.all isSimpleG = true) (rest : List GenInstruction)
    (fuel : Nat) (s : GState) :
    genRun (fuel + (body.length + 2)) false (lowerWithMultiplier body ++ rest) s =
      match applySimple (tapeGet s.cells s.pos) body (s.cells, s.pos) with
      | some (t, p) =>
        genRun fuel false rest
          ⟨tapeSet t p 0, p, tapeGet s.cells s.pos, s.input, s.output⟩
      | none => .fault := by
  rw [show fuel + (body.length + 2) = ((fuel + 1) + body.length) + 1 from by omega]
  show genRun ((fuel + 1) + body.length) true
    (body ++ [GenInstruction.resetMultiplierAndSetToZero] ++ rest)
    { s with mult := tapeGet s.cells s.pos } = _
  rw [List.append_assoc,
    genRun_simple body ([GenInstruction.resetMultiplierAndSetToZero] ++ rest) (fuel + 1)
      { s with mult := tapeGet s.cells s.pos } h]
  rcases hA : applySimple (tapeGet s.cells s.pos) body (s.cells, s.pos) with _ | ⟨t, p⟩
  · rfl
  · rfl

/-- Witness for C2's amended theorem: applied at the counterexample's
concrete body, state and fuel; the final 0 lands at the body's final
pointer position. -/
theorem with_multiplier_lowering_witness :
    genRun 5 false (lowerWithMultiplier [.moveRight 1, .increment 1])
        ⟨[1, 0, 0], 0, 0, [], []⟩ =
      match applySimple (tapeGet [1, 0, 0] 0) [.moveRight 1, .increment 1] ([1, 0, 0], 0) with
      | some (t, p) => genRun 1 false [] ⟨tapeSet t p 0, p, tapeGet [1, 0, 0] 0, [], []⟩
      | none => .fault :=
  with_multiplier_lowering [.moveRight 1, .increment 1] (by decide) [] 1
    ⟨[1, 0, 0], 0, 0, [], []⟩

/-- Condition kinds of the conditional branches the code generator emits:
the inline signed `index - n < 0` underflow test of the MoveLeft arm, the
fail flag returned by the `moveLeftUntilZero` / `moveValueLeft` helpers,
and the `cell ≠ 0` loop-header test. -/
inductive CondKind where
  | underflow
  | helperFailed
  | cellNotZero
deriving DecidableEq, Repr

/-- The value a `build_store` emitted by the code generator stores. -/
inductive StoredVal where
  | const (n : Nat)
  | nullPtr
  | callocResult
  | computed
deriving DecidableEq, Repr

/-- One recorded operation of a basic block — an abstraction of the
inkwell builder calls in `CodeGen`, keeping the payloads the claims are
about (call targets, stored constants, branch structure, phi incomings)
and recording the remaining value computations as bare
load/gep/icmp/arith/bitcast ops. -/
inductive MOp where
  | alloca (slot : String)
  | callCalloc (count size : Nat)
  | store (slot : String) (value : StoredVal)
  | load (source : String)
  | gep
  | icmp
  | arith
  | bitcast
  | storeCell (value : StoredVal)
  | callHelper (name : String) (amount : Nat)
  | callPutchar
  | callFflush
  | callFputs (message : String) (stream : String)
  | callFree (slot : String)
  | condBr (kind : CondKind) (onTrue onFalse : Nat)
  | br (target : Nat)
  | phi (incoming : List (Nat × Nat))
  | ret
deriving DecidableEq, Repr

/-- The builder state of `CodeGen`: block contents indexed by block id,
the current insertion block, and the next fresh block id.  Block 0 is
`entry`, block 1 is `error` (`main_error_block`); `prepend_basic_block` is
modelled as allocating a fresh id, since LLVM block ordering is layout
only. -/
structure Builder where
  blocks : Nat → List MOp
  cur : Nat
  fresh : Nat

/-- Block id of the shared `main_error_block`. -/
def errorId : Nat := 1

/-- Append one operation to the insertion block. -/
def emit (b : Builder) (op : MOp) : Builder :=
  { b with blocks := fun n => if n = b.cur then b.blocks n ++ [op] else b.blocks n }

/-- Append several operations to the insertion block, in order. -/
def emits (b : Builder) (ops : List MOp) : Builder := ops.foldl emit b

/-- Allocate a fresh basic block, returning its id. -/
def newBlock (b : Builder) : Builder × Nat := ({ b with fresh := b.fresh + 1 }, b.fresh)

/-- Reposition the insertion point (`builder.position_at_end`). -/
def setCur (b : Builder) (id : Nat) : Builder := { b with cur := id }

/-- The fault-branch pattern shared by the MoveLeft, MoveLeftUntilZero and
MoveValueLeft arms: allocate a continuation block, emit a conditional
branch whose true target is the shared error block, and continue in the
fresh block. -/
def branchToError (b : Builder) (k : CondKind) : Builder :=
  setCur (emit (newBlock b).1 (.condBr k errorId (newBlock b).2)) (newBlock b).2

mutual
/-- The embedding of `CodeGen::generate_instruction`, arm by arm, recording the operations
each arm emits; returns the builder and the updated `has_multiplier`
flag (the `&mut bool` argument of the source). -/
def genInstr : GenInstruction → Builder × Bool → Builder × Bool
  | .moveRight a, (b, hm) => (emit b (.callHelper "moveRight" a), hm)
  | .moveLeft _a, (b, hm) =>
    let b1 := branchToError (emits b [.load "currentCell", .arith, .icmp]) .underflow
    (emit b1 (.store "currentCell" .computed), hm)
  | .increment _a, (b, hm) =>
    (emits b ([.load "cells", .load "currentCell", .gep, .load "cellPtr"] ++ (if hm then [.load "multiplier", .arith] else []) ++ [.arith, .storeCell .computed]), hm)
  | .decrement _a, (b, hm) =>
    (emits b ([.load "cells", .load "currentCell", .gep, .load "cellPtr"] ++ (if hm then [.load "multiplier", .arith] else []) ++ [.arith, .storeCell .computed]), hm)
  | .output, (b, hm) =>
    (emits b [.load "cells", .load "currentCell", .gep, .load "cellPtr", .arith, .callPutchar, .load "__stdoutp", .callFflush], hm)
  | .input, (b, hm) =>
    (emits b [.load "cells", .load "currentCell", .callHelper "input" 0], hm)
  | .loop body, (b, hm) =>
    let n1 := newBlock b
    let n2 := newBlock n1.1
    let n3 := newBlock n2.1
    let b4 := emit n3.1 (.br n1.2)
    let b5 := setCur b4 n1.2
    let b6 := emits b5 [.load "cells", .load "currentCell", .gep, .load "cellPtr", .icmp]
    let b7 := emit b6 (.condBr .cellNotZero n2.2 n3.2)
    let b8 := setCur b7 n2.2
    let b9 := genInstrs body b8
    let b10 := emit b9 (.br n1.2)
    (setCur b10 n3.2, hm)
  | .moveRightUntilZero st, (b, hm) => (emit b (.callHelper "moveRightUntilZero" st), hm)
  | .moveLeftUntilZero st, (b, hm) =>
    (branchToError (emits b [.load "cells", .callHelper "moveLeftUntilZero" st])
      .helperFailed, hm)
  | .setToZero, (b, hm) =>
    (emits b [.load "cells", .load "currentCell", .gep, .storeCell (.const 0)], hm)
  | .setMultiplier, (b, _hm) =>
    (emits b [.load "cells", .load "currentCell", .gep, .load "cellPtr", .store "multiplier" .computed], true)
  | .resetMultiplierAndSetToZero, (b, _hm) =>
    (emits b [.load "cells", .load "currentCell", .gep, .storeCell (.const 0)], false)
  | .moveValueRight a, (b, hm) =>
    (emits b [.load "currentCell", .callHelper "moveValueRight" a], hm)
  | .moveValueLeft a, (b, hm) =>
    (branchToError
      (emits b [.load "cells", .load "currentCell", .callHelper "moveValueLeft" a])
      .helperFailed, hm)
termination_by i _ => (sizeOf i, 0)
decreasing_by
  all_goals simp_wf
  all_goals first
    | (apply Prod.Lex.left <;> simp <;> omega)
    | (apply Prod.Lex.right' <;> omega)

/-- The embedding of `CodeGen::generate_instructions`: lower a sequence with a fresh
`has_multiplier = false`, discarding the final flag. -/
def genInstrs (l : List GenInstruction) (b : Builder) : Builder :=
  (genInstrsFlag l (b, false)).1
termination_by (sizeOf l, 2)
decreasing_by
  all_goals simp_wf
  all_goals first
    | (apply Prod.Lex.left <;> simp <;> omega)
    | (apply Prod.Lex.right' <;> omega)

/-- The fold of `generate_instruction` over a sequence, threading the
`has_multiplier` flag. -/
def genInstrsFlag : List GenInstruction → Builder × Bool → Builder × Bool
  | [], s => s
  | i :: rest, s => genInstrsFlag rest (genInstr i s)
termination_by l _ => (sizeOf l, 1)
decreasing_by
  all_goals simp_wf
  all_goals first
    | (apply Prod.Lex.left <;> simp <;> omega)
    | (apply Prod.Lex.right' <;> omega)
end

/-- The operations of `CodeGen::new` (five allocas into the entry block)
followed by the runtime-state initialization at the start of
`generate_module`: `calloc(256, 1)`, store its result into `cells`, store
the constant 256 into `cellsLength`, the constant 0 into `currentCell`,
and the null pointer into `inputBuffer`. -/
def initOps : List MOp :=
  [.alloca "cells", .alloca "cellsLength", .alloca "currentCell", .alloca "inputBuffer",
   .alloca "multiplier", .callCalloc 256 1, .store "cells" .callocResult,
   .store "cellsLength" (.const 256), .store "currentCell" (.const 0),
   .store "inputBuffer" .nullPtr]

/-- The fixed diagnostic written on the error path (`errorString`). -/
def errMsg : String := "Error: Cannot move pointer to negative cell!\n"

/-- The builder after `CodeGen::new` and the initialization stores of
`generate_module`, before any program instruction is lowered: entry block
0 is the insertion point; error block 1 exists and is still empty. -/
def initStage : Builder := emits ⟨fun _ => [], 0, 2⟩ initOps

/-- The id of the `return` block that `generate_module` appends after the
whole program has been lowered. -/
def returnIdOf (p : List GenInstruction) : Nat := (genInstrs p initStage).fresh

/-- The block that ends the normal path (`last_block` in
`generate_module`): the insertion block after the program is lowered. -/
def lastIdOf (p : List GenInstruction) : Nat := (genInstrs p initStage).cur

/-- The embedding of `CodeGen::generate_module`: initialization, program lowering, branch to
the fresh return block, then the error block body (cast the diagnostic,
load stderr, fputs, fall through to return), then the return block (the
exit-value phi keyed on the predecessor, the two frees of `cells` and
`inputBuffer`, and the return). -/
def generateModule (p : List GenInstruction) : Builder :=
  let b := genInstrs p initStage
  let nb := newBlock b
  let b1 := emit nb.1 (.br nb.2)
  let b2 := setCur b1 errorId
  let b3 := emits b2 [.bitcast, .load "__stderrp", .callFputs errMsg "__stderrp", .br nb.2]
  let b4 := setCur b3 nb.2
  let b5 := emit b4 (.phi [(0, b1.cur), (1, errorId)])
  let b6 := emits b5 [.load "cells", .callFree "cells", .load "inputBuffer",
    .callFree "inputBuffer"]
  emit b6 .ret

/-- The exact contents of the error block of the generated module. -/
def errorOps (p : List GenInstruction) : List MOp :=
  [.bitcast, .load "__stderrp", .callFputs errMsg "__stderrp", .br (returnIdOf p)]

/-- The exact contents of the return block of the generated module. -/
def returnOps (p : List GenInstruction) : List MOp :=
  [.phi [(0, lastIdOf p), (1, errorId)], .load "cells", .callFree "cells",
   .load "inputBuffer", .callFree "inputBuffer", .ret]

/-- The operations instruction lowering is allowed to emit: no frees, no
fputs, no phi, no ret, no allocas, no calloc; a fault-kind conditional
branch must target the shared error block. -/
def loweringOp : MOp → Bool
  | .callFree _ => false
  | .callFputs _ _ => false
  | .phi _ => false
  | .ret => false
  | .alloca _ => false
  | .callCalloc _ _ => false
  | .condBr k t _ =>
    match k with
    | .cellNotZero => true
    | _ => t == errorId
  | _ => true

/-- Builder well-formedness maintained during lowering: the insertion
block is neither the error block nor an unallocated id, at least the
entry and error blocks are allocated, and unallocated blocks are empty. -/
def GoodB (b : Builder) : Prop :=
  b.cur ≠ errorId ∧ b.cur < b.fresh ∧ 2 ≤ b.fresh ∧
    ∀ id, b.fresh ≤ id → b.blocks id = []

/-- What one lowering stage may do to the builder: append `loweringOp`
operations to blocks, leaving the error block untouched and only ever
advancing the fresh-block counter. -/
def Extends (b b' : Builder) : Prop :=
  (∀ id, ∃ t, b'.blocks id = b.blocks id ++ t ∧ ∀ op ∈ t, loweringOp op = true) ∧
  b'.blocks errorId = b.blocks errorId ∧ b.fresh ≤ b'.fresh

theorem extends_rfl (b : Builder) : Extends b b :=
  ⟨fun id => ⟨[], by simp⟩, Eq.refl _, le_refl _⟩

theorem extends_trans {a b c : Builder} (h1 : Extends a b) (h2 : Extends b c) :
    Extends a c := by
  refine ⟨fun id => ?_, h2.2.1.trans h1.2.1, h1.2.2.trans h2.2.2⟩
  obtain ⟨t1, ht1, hl1⟩ := h1.1 id
  obtain ⟨t2, ht2, hl2⟩ := h2.1 id
  refine ⟨t1 ++ t2, by rw [ht2, ht1, List.append_assoc], fun op hop => ?_⟩
  rcases List.mem_append.mp hop with h | h
  · exact hl1 op h
  · exact hl2 op h

theorem step_emit (b : Builder) (op : MOp) (hg : GoodB b) (hop : loweringOp op = true) :
    GoodB (emit b op) ∧ Extends b (emit b op) := by
  obtain ⟨hc, hcf, hf, hbl⟩ := hg
  refine ⟨⟨hc, hcf, hf, fun id hid => ?_⟩, fun id => ?_, ?_, le_refl _⟩
  · have hid' : b.fresh ≤ id := hid
    show (if id = b.cur then b.blocks id ++ [op] else b.blocks id) = []
    rw [if_neg (by omega), hbl id hid']
  · show ∃ t, (if id = b.cur then b.blocks id ++ [op] else b.blocks id) = b.blocks id ++ t ∧ _
    by_cases hid : id = b.cur
    · exact ⟨[op], by rw [if_pos hid], by simpa using hop⟩
    · exact ⟨[], by rw [if_neg hid]; simp⟩
  · show (if errorId = b.cur then b.blocks errorId ++ [op] else b.blocks errorId) =
      b.blocks errorId
    rw [if_neg (fun hh => hc hh.symm)]

theorem step_emits (ops : List MOp) (hops : ∀ op ∈ ops, loweringOp op = true) :
    ∀ b : Builder, GoodB b → GoodB (emits b ops) ∧ Extends b (emits b ops) := by
  induction ops with
  | nil => intro b hg; exact ⟨hg, extends_rfl b⟩
  | cons op rest ih =>
    intro b hg
    have h1 := step_emit b op hg (hops op (by simp))
    have h2 := ih (fun o ho => hops o (by simp [ho])) (emit b op) h1.1
    exact ⟨h2.1, extends_trans h1.2 h2.2⟩

theorem step_newBlock (b : Builder) (hg : GoodB b) :
    GoodB (newBlock b).1 ∧ Extends b (newBlock b).1 ∧ (newBlock b).2 ≠ errorId ∧
      (newBlock b).2 < (newBlock b).1.fresh := by
  obtain ⟨hc, hcf, hf, hbl⟩ := hg
  refine ⟨⟨hc, by simp [newBlock]; omega, by simp [newBlock]; omega, fun id hid => ?_⟩,
    ⟨fun id => ⟨[], by simp [newBlock]⟩, rfl, by simp [newBlock]⟩, ?_, by simp [newBlock]⟩
  · exact hbl id (by simp [newBlock] at hid; omega)
  · show b.fresh ≠ errorId
    simp [errorId]
    omega

theorem step_setCur (b : Builder) (id : Nat) (hg : GoodB b) (h1 : id ≠ errorId)
    (h2 : id < b.fresh) : GoodB (setCur b id) ∧ Extends b (setCur b id) := by
  obtain ⟨hc, hcf, hf, hbl⟩ := hg
  exact ⟨⟨h1, h2, hf, hbl⟩, ⟨fun i => ⟨[], by simp [setCur]⟩, rfl, le_refl _⟩⟩

theorem loweringOp_condBr_error (k : CondKind) (f : Nat) :
    loweringOp (.condBr k errorId f) = true := by
  cases k <;> rfl

theorem step_branchToError (b : Builder) (k : CondKind) (hg : GoodB b) :
    GoodB (branchToError b k) ∧ Extends b (branchToError b k) := by
  obtain ⟨g1, e1, hne, hlt⟩ := step_newBlock b hg
  obtain ⟨g2, e2⟩ := step_emit (newBlock b).1 (.condBr k errorId (newBlock b).2) g1
    (loweringOp_condBr_error k _)
  have hlt2 : (newBlock b).2 <
      (emit (newBlock b).1 (.condBr k errorId (newBlock b).2)).fresh := hlt
  obtain ⟨g3, e3⟩ := step_setCur _ (newBlock b).2 g2 hne hlt2
  exact ⟨g3, extends_trans e1 (extends_trans e2 e3)⟩

theorem genInstrsFlag_good (l : List GenInstruction)
    (H : ∀ i ∈ l, ∀ (b : Builder) (hmx : Bool), GoodB b →
      GoodB (genInstr i (b, hmx)).1 ∧ Extends b (genInstr i (b, hmx)).1) :
    ∀ (s : Builder × Bool), GoodB s.1 →
      GoodB (genInstrsFlag l s).1 ∧ Extends s.1 (genInstrsFlag l s).1 := by
  induction l with
  | nil =>
    intro s hg
    rw [show genInstrsFlag [] s = s from by simp [genInstrsFlag]]
    exact ⟨hg, extends_rfl _⟩
  | cons i rest ih =>
    intro s hg
    obtain ⟨b, hm⟩ := s
    rw [show genInstrsFlag (i :: rest) (b, hm) = genInstrsFlag rest (genInstr i (b, hm))
      from by rw [genInstrsFlag]]
    have h1 := H i (by simp) b hm hg
    have h2 := ih (fun j hj => H j (by simp [hj])) (genInstr i (b, hm)) h1.1
    exact ⟨h2.1, extends_trans h1.2 h2.2⟩

theorem genInstr_good : ∀ (n : Nat) (i : GenInstruction), sizeOf i ≤ n →
    ∀ (b : Builder) (hm : Bool), GoodB b →
      GoodB (genInstr i (b, hm)).1 ∧ Extends b (genInstr i (b, hm)).1 := by
  intro n
  induction n using Nat.strong_induction_on with
  | _ n ih =>
    intro i hsz b hm hg
    cases i with
    | moveRight a =>
      simp only [genInstr]
      exact step_emit b _ hg rfl
    | moveLeft a =>
      simp only [genInstr]
      obtain ⟨g1, e1⟩ := step_emits [.load "currentCell", .arith, .icmp] (by decide) b hg
      obtain ⟨g2, e2⟩ := step_branchToError _ .underflow g1
      obtain ⟨g3, e3⟩ := step_emit _ (.store "currentCell" .computed) g2 rfl
      exact ⟨g3, extends_trans e1 (extends_trans e2 e3)⟩
    | increment a =>
      cases hm with
      | false =>
        simp [genInstr]
        exact step_emits _ (by decide) b hg
      | true =>
        simp [genInstr]
        exact step_emits _ (by decide) b hg
    | decrement a =>
      cases hm with
      | false =>
        simp [genInstr]
        exact step_emits _ (by decide) b hg
      | true =>
        simp [genInstr]
        exact step_emits _ (by decide) b hg
    | output =>
      simp only [genInstr]
      exact step_emits _ (by decide) b hg
    | input =>
      simp only [genInstr]
      exact step_emits _ (by decide) b hg
    | loop body =>
      simp only [genInstr, genInstrs]
      obtain ⟨hc0, hcf0, hf0, hemp0⟩ := hg
      obtain ⟨g1, e1, hne1, hlt1⟩ := step_newBlock b ⟨hc0, hcf0, hf0, hemp0⟩
      obtain ⟨g2, e2, hne2, hlt2⟩ := step_newBlock _ g1
      obtain ⟨g3, e3, hne3, hlt3⟩ := step_newBlock _ g2
      obtain ⟨g4, e4⟩ := step_emit _ (.br (newBlock b).2) g3 rfl
      obtain ⟨g5, e5⟩ := step_setCur _ (newBlock b).2 g4 hne1
        (show b.fresh < b.fresh + 1 + 1 + 1 by omega)
      obtain ⟨g6, e6⟩ := step_emits
        [.load "cells", .load "currentCell", .gep, .load "cellPtr", .icmp] (by decide) _ g5
      obtain ⟨g7, e7⟩ := step_emit _
        (.condBr .cellNotZero (newBlock (newBlock b).1).2 (newBlock (newBlock (newBlock b).1).1).2)
        g6 rfl
      obtain ⟨g8, e8⟩ := step_setCur _ (newBlock (newBlock b).1).2 g7 hne2
        (show b.fresh + 1 < b.fresh + 1 + 1 + 1 by omega)
      have Hmem : ∀ j ∈ body, ∀ (bb : Builder) (hmx : Bool), GoodB bb →
          GoodB (genInstr j (bb, hmx)).1 ∧ Extends bb (genInstr j (bb, hmx)).1 := by
        intro j hj bb hmx hgb
        have hj1 := List.sizeOf_lt_of_mem hj
        have hj2 : sizeOf (GenInstruction.loop body) = 1 + sizeOf body := by simp
        exact ih (sizeOf j) (by omega) j (le_refl _) bb hmx hgb
      obtain ⟨g9, e9⟩ := genInstrsFlag_good body Hmem (_, false) g8
      obtain ⟨g10, e10⟩ := step_emit _ (.br (newBlock b).2) g9 rfl
      obtain ⟨g11, e11⟩ := step_setCur _ (newBlock (newBlock (newBlock b).1).1).2 g10 hne3
        (lt_of_lt_of_le (Nat.lt_succ_self _) e9.2.2)
      exact ⟨g11, extends_trans e1 (extends_trans e2 (extends_trans e3 (extends_trans e4
        (extends_trans e5 (extends_trans e6 (extends_trans e7 (extends_trans e8
          (extends_trans e9 (extends_trans e10 e11)))))))))⟩
    | moveRightUntilZero st =>
      simp only [genInstr]
      exact step_emit b _ hg rfl
    | moveLeftUntilZero st =>
      simp only [genInstr]
      obtain ⟨g1, e1⟩ := step_emits [.load "cells", .callHelper "moveLeftUntilZero" st]
        (by intro op hop; simp at hop; rcases hop with rfl | rfl <;> rfl) b hg
      obtain ⟨g2, e2⟩ := step_branchToError _ .helperFailed g1
      exact ⟨g2, extends_trans e1 e2⟩
    | setToZero =>
      simp only [genInstr]
      exact step_emits _ (by decide) b hg
    | setMultiplier =>
      simp only [genInstr]
      exact step_emits _ (by decide) b hg
    | resetMultiplierAndSetToZero =>
      simp only [genInstr]
      exact step_emits _ (by decide) b hg
    | moveValueRight a =>
      simp only [genInstr]
      exact step_emits _ (by intro op hop; simp at hop; rcases hop with rfl | rfl <;> rfl) b hg
    | moveValueLeft a =>
      simp only [genInstr]
      obtain ⟨g1, e1⟩ := step_emits
        [.load "cells", .load "currentCell", .callHelper "moveValueLeft" a]
        (by intro op hop; simp at hop; rcases hop with rfl | rfl | rfl <;> rfl) b hg
      obtain ⟨g2, e2⟩ := step_branchToError _ .helperFailed g1
      exact ⟨g2, extends_trans e1 e2⟩

theorem genInstrs_good (l : List GenInstruction) (b : Builder) (hg : GoodB b) :
    GoodB (genInstrs l b) ∧ Extends b (genInstrs l b) := by
  rw [show genInstrs l b = (genInstrsFlag l (b, false)).1 from by rw [genInstrs]]
  exact genInstrsFlag_good l
    (fun i _ bb hmx hgb => genInstr_good (sizeOf i) i (le_refl _) bb hmx hgb) (b, false) hg

theorem emit_blocks (b : Builder) (op : MOp) (id : Nat) :
    (emit b op).blocks id = if id = b.cur then b.blocks id ++ [op] else b.blocks id := rfl

theorem emit_cur (b : Builder) (op : MOp) : (emit b op).cur = b.cur := rfl

theorem emit_fresh (b : Builder) (op : MOp) : (emit b op).fresh = b.fresh := rfl

theorem setCur_blocks (b : Builder) (n id : Nat) : (setCur b n).blocks id = b.blocks id := rfl

theorem setCur_cur (b : Builder) (n : Nat) : (setCur b n).cur = n := rfl

theorem setCur_fresh (b : Builder) (n : Nat) : (setCur b n).fresh = b.fresh := rfl

theorem newBlock_1_blocks (b : Builder) (id : Nat) :
    (newBlock b).1.blocks id = b.blocks id := rfl

theorem newBlock_1_cur (b : Builder) : (newBlock b).1.cur = b.cur := rfl

theorem newBlock_1_fresh (b : Builder) : (newBlock b).1.fresh = b.fresh + 1 := rfl

theorem newBlock_2 (b : Builder) : (newBlock b).2 = b.fresh := rfl

theorem emits_cur (ops : List MOp) : ∀ b : Builder, (emits b ops).cur = b.cur := by
  induction ops with
  | nil => intro b; rfl
  | cons op rest ih => intro b; exact (ih (emit b op)).trans rfl

theorem emits_fresh (ops : List MOp) : ∀ b : Builder, (emits b ops).fresh = b.fresh := by
  induction ops with
  | nil => intro b; rfl
  | cons op rest ih => intro b; exact (ih (emit b op)).trans rfl

theorem emits_blocks (ops : List MOp) : ∀ (b : Builder) (id : Nat),
    (emits b ops).blocks id = if id = b.cur then b.blocks id ++ ops else b.blocks id := by
  induction ops with
  | nil => intro b id; by_cases h : id = b.cur <;> simp [emits, h]
  | cons op rest ih =>
    intro b id
    show (emits (emit b op) rest).blocks id = _
    rw [ih (emit b op) id]
    by_cases h : id = b.cur
    · rw [if_pos (show id = (emit b op).cur from h), if_pos h, emit_blocks, if_pos h,
        List.append_assoc]
      rfl
    · rw [if_neg (show ¬id = (emit b op).cur from h), if_neg h, emit_blocks, if_neg h]

theorem initStage_blocks (id : Nat) :
    initStage.blocks id = if id = 0 then initOps else [] := by
  rw [show initStage = emits ⟨fun _ => [], 0, 2⟩ initOps from rfl, emits_blocks]
  by_cases h : id = 0 <;> simp [h]

theorem initStage_good : GoodB initStage := by
  refine ⟨by decide, by decide, by decide, fun id hid => ?_⟩
  have hid' : 2 ≤ id := hid
  rw [initStage_blocks, if_neg (by omega)]

theorem generateModule_blocks (p : List GenInstruction) (id : Nat) :
    (generateModule p).blocks id =
      if id = returnIdOf p then returnOps p
      else if id = errorId then errorOps p
      else if id = lastIdOf p then
        (genInstrs p initStage).blocks id ++ [.br (returnIdOf p)]
      else (genInstrs p initStage).blocks id := by
  obtain ⟨⟨hcne, hclt, hf2, hemp⟩, hext⟩ := genInstrs_good p initStage initStage_good
  have herr : (genInstrs p initStage).blocks errorId = [] := by
    rw [hext.2.1, initStage_blocks]
    rfl
  simp only [generateModule, returnOps, errorOps, returnIdOf, lastIdOf,
    emit_blocks, emit_cur, setCur_blocks, setCur_cur, newBlock_1_blocks, newBlock_1_cur,
    newBlock_2, emits_blocks, emits_cur]
  by_cases h3 : id = (genInstrs p initStage).fresh
  · have h2 : ¬ id = errorId := by
      rw [h3]
      show ¬ _ = 1
      omega
    have h1 : ¬ id = (genInstrs p initStage).cur := by rw [h3]; omega
    simp only [if_pos h3, if_neg h1, if_neg h2]
    rw [hemp id (le_of_eq h3.symm)]
    simp
  · simp only [if_neg h3]
    by_cases h2 : id = errorId
    · have h1 : ¬ id = (genInstrs p initStage).cur := by
        rw [h2]
        exact fun hh => hcne hh.symm
      simp only [if_pos h2, if_neg h1]
      rw [show (genInstrs p initStage).blocks id = [] from h2 ▸ herr]
      simp only [List.nil_append]
    · simp only [if_neg h2]

/-- Holds (`true`) exactly on `free` calls. -/
def isFreeOp : MOp → Bool
  | .callFree _ => true
  | _ => false

/-- Holds (`true`) exactly on return instructions. -/
def isRetOp : MOp → Bool
  | .ret => true
  | _ => false

/-- Holds (`true`) exactly on conditional branches. -/
def isCondBrOp : MOp → Bool
  | .condBr _ _ _ => true
  | _ => false

theorem loweringOp_not_free_ret (op : MOp) (h : loweringOp op = true) :
    isFreeOp op = false ∧ isRetOp op = false := by
  cases op <;> simp_all [loweringOp, isFreeOp, isRetOp]

theorem loweringOp_condBr_target (k : CondKind) (t f : Nat)
    (h : loweringOp (.condBr k t f) = true) (hk : k ≠ .cellNotZero) : t = errorId := by
  cases k with
  | cellNotZero => exact absurd rfl hk
  | underflow => simpa [loweringOp] using h
  | helperFailed => simpa [loweringOp] using h

theorem initOps_not_free_ret : ∀ op ∈ initOps, isFreeOp op = false ∧ isRetOp op = false := by
  decide

theorem initOps_no_condBr : ∀ op ∈ initOps, isCondBrOp op = false := by decide

theorem mem_genInstrs_blocks (p : List GenInstruction) (id : Nat) (op : MOp)
    (hop : op ∈ (genInstrs p initStage).blocks id) :
    op ∈ initOps ∨ loweringOp op = true := by
  obtain ⟨-, hext⟩ := genInstrs_good p initStage initStage_good
  obtain ⟨t, ht, hl⟩ := hext.1 id
  rw [ht] at hop
  rcases List.mem_append.mp hop with h | h
  · rw [initStage_blocks] at h
    by_cases h0 : id = 0
    · rw [if_pos h0] at h
      exact Or.inl h
    · rw [if_neg h0] at h
      simp at h
  · exact Or.inr (hl op h)

/-- C10 (confirmed): for every program, before any lowered instruction of
the program executes, the entry block begins with the five stack slots of
`CodeGen::new` followed by the runtime-state initialization of
`generate_module`: a `calloc(256, 1)` call allocating 256 zeroed byte
cells, its result stored into the `cells` slot, the constant 256 stored as
the tape length, the constant 0 stored as the current cell index, and the
null pointer stored into the input-buffer slot. -/
theorem entry_block_initialization (p : List GenInstruction) :
    ∃ rest, (generateModule p).blocks 0 = initOps ++ rest := by
  obtain ⟨⟨hcne, hclt, hf2, hemp⟩, hext⟩ := genInstrs_good p initStage initStage_good
  obtain ⟨t, ht, -⟩ := hext.1 0
  have hb1 : (genInstrs p initStage).blocks 0 = initOps ++ t := by
    rw [ht, initStage_blocks]
    rfl
  rw [generateModule_blocks]
  rw [if_neg (show ¬(0 : Nat) = returnIdOf p from by
      rw [show returnIdOf p = (genInstrs p initStage).fresh from rfl]; omega),
    if_neg (show ¬(0 : Nat) = errorId from by decide)]
  by_cases h1 : (0 : Nat) = lastIdOf p
  · rw [if_pos h1, hb1, List.append_assoc]
    exact ⟨t ++ [.br (returnIdOf p)], rfl⟩
  · rw [if_neg h1, hb1]
    exact ⟨t, rfl⟩

/-- C3 (confirmed): in the generated entry function, (i) the error block
consists exactly of casting the fixed diagnostic, loading stderr, one
fputs of the diagnostic, and a fall-through branch to the return block;
(ii) the return block consists exactly of a two-input phi selecting 0 when
reached from the final block of the normal path and 1 when reached from
the error block, a load+free of the tape buffer, a load+free of the input
buffer, and the return — so both buffers are released exactly once on
every path; (iii) the normal-path exit, error and return blocks are
pairwise distinct; (iv) free calls and returns occur nowhere outside the
return block; and (v) every fault-kind conditional branch anywhere in the
module targets the shared error block. -/
theorem error_return_structure (p : List GenInstruction) :
    (generateModule p).blocks errorId = errorOps p ∧
    (generateModule p).blocks (returnIdOf p) = returnOps p ∧
    lastIdOf p ≠ errorId ∧ returnIdOf p ≠ errorId ∧ lastIdOf p ≠ returnIdOf p ∧
    (∀ id op, id ≠ returnIdOf p → op ∈ (generateModule p).blocks id →
      isFreeOp op = false ∧ isRetOp op = false) ∧
    (∀ id k t f, MOp.condBr k t f ∈ (generateModule p).blocks id →
      k ≠ .cellNotZero → t = errorId) := by
  obtain ⟨⟨hcne, hclt, hf2, hemp⟩, hext⟩ := genInstrs_good p initStage initStage_good
  have hrid : returnIdOf p = (genInstrs p initStage).fresh := rfl
  have hlid : lastIdOf p = (genInstrs p initStage).cur := rfl
  have hrne : ¬(errorId = returnIdOf p) := by
    rw [hrid]
    show ¬(1 : Nat) = _
    omega
  refine ⟨?_, ?_, ?_, ?_, ?_, ?_, ?_⟩
  · rw [generateModule_blocks, if_neg hrne, if_pos rfl]
  · rw [generateModule_blocks, if_pos rfl]
  · rw [hlid]
    exact hcne
  · rw [hrid]
    show ¬(genInstrs p initStage).fresh = 1
    omega
  · rw [hlid, hrid]
    omega
  · intro id op hne hop
    rw [generateModule_blocks, if_neg hne] at hop
    by_cases h2 : id = errorId
    · rw [if_pos h2] at hop
      simp [errorOps] at hop
      rcases hop with rfl | rfl | rfl | rfl <;> exact ⟨rfl, rfl⟩
    · rw [if_neg h2] at hop
      by_cases h1 : id = lastIdOf p
      · rw [if_pos h1] at hop
        rcases List.mem_append.mp hop with h | h
        · rcases mem_genInstrs_blocks p id op h with hi | hl
          · exact initOps_not_free_ret op hi
          · exact loweringOp_not_free_ret op hl
        · rw [List.mem_singleton] at h
          subst h
          exact ⟨rfl, rfl⟩
      · rw [if_neg h1] at hop
        rcases mem_genInstrs_blocks p id op hop with hi | hl
        · exact initOps_not_free_ret op hi
        · exact loweringOp_not_free_ret op hl
  · intro id k t f hop hk
    rw [generateModule_blocks] at hop
    by_cases h3 : id = returnIdOf p
    · rw [if_pos h3] at hop
      simp [returnOps] at hop
    · rw [if_neg h3] at hop
      by_cases h2 : id = errorId
      · rw [if_pos h2] at hop
        simp [errorOps] at hop
      · rw [if_neg h2] at hop
        have hmem : MOp.condBr k t f ∈ (genInstrs p initStage).blocks id := by
          by_cases h1 : id = lastIdOf p
          · rw [if_pos h1] at hop
            rcases List.mem_append.mp hop with h | h
            · exact h
            · simp at h
          · rwa [if_neg h1] at hop
        rcases mem_genInstrs_blocks p id _ hmem with hi | hl
        · exact absurd (initOps_no_condBr _ hi) (by simp [isCondBrOp])
        · exact loweringOp_condBr_target k t f hl hk

theorem genInstrs_nil : genInstrs [] initStage = initStage := by
  rw [genInstrs, genInstrsFlag]

/-- Witness for C3: the no-free/no-return-outside-the-return-block
conjunct applied at the empty program, the entry block, and its first
operation. -/
theorem error_return_structure_witness :
    isFreeOp (.alloca "cells") = false ∧ isRetOp (.alloca "cells") = false := by
  have h0 : returnIdOf ([] : List GenInstruction) = 2 := by
    rw [show returnIdOf ([] : List GenInstruction) = (genInstrs [] initStage).fresh from rfl,
      genInstrs_nil]
    decide
  have hmem : MOp.alloca "cells" ∈ (generateModule []).blocks 0 := by
    rw [generateModule_blocks, if_neg (show ¬(0 : Nat) = returnIdOf [] from by rw [h0]; decide),
      if_neg (show ¬(0 : Nat) = errorId from by decide),
      if_pos (show (0 : Nat) = lastIdOf [] from by
        rw [show lastIdOf ([] : List GenInstruction) = (genInstrs [] initStage).cur from rfl,
          genInstrs_nil]
        decide),
      genInstrs_nil, initStage_blocks, if_pos rfl]
    exact List.mem_append_left _ (by decide)
  exact (error_return_structure []).2.2.2.2.2.1 0 (.alloca "cells")
    (by rw [h0]; decide) hmem

end Brainfuck
